import Mathlib

/-!
Verification of the geometry/rasterization core of the `graphics_introduction`
crate. The Rust code computes over `f64`; the embedding models coordinates as
exact rationals (`ℚ`): every concrete input appearing in the claims is a small
integer for which the `f64` computations are exact, and the universal claims
concern the algorithms' branch structure, which the exact model mirrors.
Loops with data-dependent exit conditions are embedded with an explicit fuel
parameter; a Rust call that returns corresponds to the fueled function
returning `some` for every sufficiently large fuel, and a Rust call that never
returns corresponds to `none` at every fuel.
-/

namespace GraphicsIntroduction

/-- `Point` from `src/lib.rs`: a 2D coordinate pair (`f64` fields, modelled
exactly over `ℚ`). Equality is exact, matching `PartialEq` on `f64`. -/
structure Point where
  x : ℚ
  y : ℚ
deriving DecidableEq

/-- `ERROR_MARGIN` from `src/lib.rs` (`0.7`): the coarse epsilon used by the
rasterization loop's termination test. -/
def ERROR_MARGIN : ℚ := 7 / 10

/-- `SMALL_ERROR_MARGIN` from `src/lib.rs` (`0.001`): the fine epsilon used by
the parametric-curve sampling loop's termination test. -/
def SMALL_ERROR_MARGIN : ℚ := 1 / 1000

/-- `f64::signum` restricted to non-NaN inputs, as used in
`OneColorSegment::get_start_end_inside_polygon` (`src/segment.rs`): it returns
`-1.0` for negative values and `1.0` otherwise (in particular `signum(0.0) = 1.0`
in Rust). The result is cast to `i8` in the source. -/
def fsignum (q : ℚ) : ℤ :=
  if q < 0 then -1 else 1

/-- `f64::signum` kept as a rational, for the step directions in
`OneColorSegment::new` (`src/segment.rs`). -/
def fsignumQ (q : ℚ) : ℚ :=
  if q < 0 then -1 else 1

/-- The `windows(2) ... chain(iter::once((last, first)))` pattern used
throughout the source (polygon edges, vertex sign pairs, containment tests):
all cyclically adjacent pairs of a list, in order. -/
def cyclicPairs {α : Type} (l : List α) : List (α × α) :=
  l.zip (l.rotate 1)

/-- `Line` from `src/segment.rs`: a line in general form `a·x + b·y + c = 0`
with `f64` coefficients, modelled over `ℚ`. -/
structure Line where
  a : ℚ
  b : ℚ
  c : ℚ
deriving DecidableEq

namespace Line

/-- `Line::new_from_points` (`src/segment.rs`): `a = end.y - start.y`,
`b = start.x - end.x`, `c = end.x·start.y - start.x·end.y` (the `mul_add` in
the source is exact here). -/
def new_from_points (start end_ : Point) : Line :=
  ⟨end_.y - start.y, start.x - end_.x, end_.x * start.y - start.x * end_.y⟩

/-- `Line::intersection` (`src/segment.rs`): Cramer's-rule solution of the two
general-form equations, `self` first. -/
def intersection (self other : Line) : Point :=
  ⟨(self.c * other.b - other.c * self.b) / (other.a * self.b - self.a * other.b),
   (self.c * other.a - other.c * self.a) / (self.a * other.b - other.a * self.b)⟩

end Line

/-- The polygon consumed by `OneColorSegment::get_start_end_inside_polygon`.
Modelled from the spec: the polygon module revision that `src/segment.rs`
compiles against (exposing `vertices()` and `edges()`) is not under `src/`;
per spec §4.3 a polygon built from points stores the cyclically connected
edge list, `vertices()` returns each edge's first point in edge order, and
`edges()` the edges themselves. The containment algorithm itself is translated
from `Polygon::contains` in `src/polygon.rs` (equivalently `Figure::contains`
in `src/figure.rs`), which are in the sources. -/
structure Polygon where
  vertices : List Point
deriving DecidableEq

namespace Polygon

/-- The edge list of a polygon built from a vertex list: cyclically adjacent
vertex pairs (`Polygon::new` in `src/polygon.rs` builds exactly these edges;
each edge's endpoints are its `first_point`/`last_point`). -/
def edges (P : Polygon) : List (Point × Point) :=
  cyclicPairs P.vertices

/-- `Polygon::contains` (`src/polygon.rs` lines 79–98): even-odd ray casting.
For each cyclically adjacent vertex pair whose `y`s straddle `point.y`,
interpolate the crossing `x` (`slope = (x₁-x₀)/(y₁-y₀)`,
`x = (point.y-y₀)·slope + x₀`), keep it if `point.x < x`, and test whether the
count is odd (`count & 1 == 1` in the source, `count % 2 == 1` in the
equivalent `Figure::contains`). -/
def contains (P : Polygon) (point : Point) : Bool :=
  ((((cyclicPairs P.vertices).filter
      (fun e => decide (e.1.y > point.y) != decide (e.2.y > point.y))).map
      (fun e =>
        let slope := (e.2.x - e.1.x) / (e.2.y - e.1.y)
        (point.y - e.1.y) * slope + e.1.x)).filter
      (fun ix => decide (point.x < ix))).length % 2 == 1

end Polygon

/-- `CutSegmentInsidePolygonError` from `src/segment.rs`. -/
inductive CutSegmentInsidePolygonError where
  | outside
  | notEnoughIntersections
  | invalidIntersection
  | invalidSegments
deriving DecidableEq

/-- The `signums.first().is_some_and(|first| signums.iter().skip(1).all(|elem| first == elem))`
test from `OneColorSegment::get_start_end_inside_polygon` (`src/segment.rs`):
true iff the list is nonempty and every element equals the first. -/
def allEqFirst : List ℤ → Bool
  | [] => false
  | x :: xs => xs.all (fun v => v == x)

namespace OneColorSegment

/-- The vertex sign list from `OneColorSegment::get_start_end_inside_polygon`
(`src/segment.rs` lines 267–287): `signum(a·vx + b·vy + c)` at every polygon
vertex (a NaN signum cannot arise in the exact model, so the
`InvalidSegments` branch is never taken). -/
def clipSignums (line : Line) (polygon : Polygon) : List ℤ :=
  polygon.vertices.map (fun point => fsignum (line.a * point.x + line.b * point.y + line.c))

/-- The crossing-point list from
`OneColorSegment::get_start_end_inside_polygon` (`src/segment.rs` lines
295–313): walk the cyclic sign sequence pairwise, zip with the polygon's
edges, keep the edges across which the sign changes, and intersect the
query line with each such edge's general-form line, in edge order. -/
def clipIntersections (line : Line) (polygon : Polygon) (signums : List ℤ) : List Point :=
  (((cyclicPairs signums).zip polygon.edges).filter
    (fun se => !(se.1.1 == se.1.2))).map
    (fun se => line.intersection (Line.new_from_points se.2.1 se.2.2))

/-- `OneColorSegment::get_start_end_inside_polygon` (`src/segment.rs` lines
247–341): resolve the clipped endpoints of the segment `start`–`end` against
`polygon`. Both endpoints inside ⇒ returned unchanged; all vertex signs equal
⇒ `Outside`; otherwise the clipped start is the original start if inside,
else the first crossing, and the clipped end is the original end if inside,
else the second crossing, with `NotEnoughIntersections` when the required
crossing is missing. -/
def get_start_end_inside_polygon (start end_ : Point) (polygon : Polygon) :
    Except CutSegmentInsidePolygonError (Point × Point) :=
  if polygon.contains start && polygon.contains end_ then
    .ok (start, end_)
  else
    let line := Line.new_from_points start end_
    let signums := clipSignums line polygon
    if allEqFirst signums then
      .error .outside
    else
      let intersections := clipIntersections line polygon signums
      match (if polygon.contains start then some start else intersections[0]?) with
      | none => .error .notEnoughIntersections
      | some s =>
        match (if polygon.contains end_ then some end_ else intersections[1]?) with
        | none => .error .notEnoughIntersections
        | some e => .ok (s, e)

end OneColorSegment

/-- `Iterator::position`: index of the first element satisfying the
predicate. -/
def position {α : Type} : List α → (α → Bool) → Option ℕ
  | [], _ => none
  | x :: xs, p => if p x then some 0 else (position xs p).map (· + 1)

/-- `Iterator::rposition`: index (from the front) of the last element
satisfying the predicate. -/
def rposition {α : Type} : List α → (α → Bool) → Option ℕ
  | [], _ => none
  | x :: xs, p =>
    match rposition xs p with
    | some j => some (j + 1)
    | none => if p x then some 0 else none

namespace OneColorSegment

/-- `OneColorSegment::cut_inside_polygon` (`src/segment.rs` lines 217–245),
as a transition on the segment's stored point list (`self.points`): resolve
the clipped endpoints from the first and last stored points, find the first
stored point equal to either resolved endpoint and drop everything before it
(`drain(..index)`), then find the last stored point equal to either resolved
endpoint and drop everything after it (`drain(index+1..)`). Returns the
result paired with the final point list. Rust panics on an empty point list
(`first_point` indexes `points[0]`); the model's `headD`/`getLastD` defaults
are never reached in the theorems, which assume a nonempty list. -/
def cut_inside_polygon (polygon : Polygon) (points : List Point) :
    Except CutSegmentInsidePolygonError Unit × List Point :=
  match get_start_end_inside_polygon (points.headD ⟨0, 0⟩) (points.getLastD ⟨0, 0⟩) polygon with
  | .error e => (.error e, points)
  | .ok (start, end_) =>
    match position points (fun point => point == start || point == end_) with
    | none => (.error .invalidIntersection, points)
    | some index =>
      let points₁ := points.drop index
      match rposition points₁ (fun point => point == end_ || point == start) with
      | none => (.error .invalidIntersection, points₁)
      | some index₂ => (.ok (), points₁.take (index₂ + 1))

/-- The `while` loop of `OneColorSegment::new` (`src/segment.rs` lines
169–189), with an explicit fuel bound: while `|x - end.x| > ERROR_MARGIN`
or `|y - end.y| > ERROR_MARGIN`, step the minor axis and adjust the decision
variable when it is positive, always step the major axis, and push the new
position. `none` models a loop that has not finished within `fuel` steps. -/
def newLoop (ex ey sign_x sign_y distance_x distance_y : ℚ) (swapped : Bool) :
    ℕ → ℚ → ℚ → ℚ → List Point → Option (List Point)
  | 0, x, y, _, acc =>
    if |x - ex| > ERROR_MARGIN ∨ |y - ey| > ERROR_MARGIN then none else some acc
  | fuel + 1, x, y, decision, acc =>
    if |x - ex| > ERROR_MARGIN ∨ |y - ey| > ERROR_MARGIN then
      let x₁ := if decision > 0 then (if swapped then x + sign_x else x) else x
      let y₁ := if decision > 0 then (if swapped then y else y - sign_y) else y
      let d₁ := if decision > 0 then decision - 2 * distance_x else decision
      let x₂ := if swapped then x₁ else x₁ + sign_x
      let y₂ := if swapped then y₁ - sign_y else y₁
      newLoop ex ey sign_x sign_y distance_x distance_y swapped fuel
        x₂ y₂ (d₁ + 2 * distance_y) (acc ++ [⟨x₂, y₂⟩])
    else some acc

/-- `OneColorSegment::new` (`src/segment.rs` lines 154–192), producing the
rasterized point list: absolute axis distances, step signs via `f64::signum`,
axis swap when `|dx| < |dy|`, decision variable initialized to `2·dy - dx`,
point list seeded with the start point, then the stepping loop. -/
def new_points (start end_ : Point) (fuel : ℕ) : Option (List Point) :=
  let dx0 := |end_.x - start.x|
  let dy0 := |start.y - end_.y|
  let sign_x := fsignumQ (end_.x - start.x)
  let sign_y := fsignumQ (start.y - end_.y)
  let swapped : Bool := decide (dx0 < dy0)
  let distance_x := if swapped then dy0 else dx0
  let distance_y := if swapped then dx0 else dy0
  newLoop end_.x end_.y sign_x sign_y distance_x distance_y swapped fuel
    start.x start.y (2 * distance_y - distance_x) [start]

end OneColorSegment

/-- `InvalidPoints` from `src/segment.rs`. -/
inductive InvalidPoints where
  | invalidPoints
deriving DecidableEq

/-- `f64 as i32` for in-range values: truncation toward zero. -/
def truncToward0 (q : ℚ) : ℤ :=
  if q < 0 then ⌈q⌉ else ⌊q⌋

namespace OneColorSegment

/-- The `for _ in 0..loop_condition` loop of `OneColorSegment::new_45_deg`
(`src/segment.rs` lines 136–147): push the current position, then update the
decision variable and step. The iteration count is fixed up front, so no fuel
is needed. -/
def new45Loop (distance_x distance_y : ℚ) : ℕ → ℚ → ℚ → ℚ → List Point → List Point
  | 0, _, _, _, acc => acc
  | n + 1, x, y, decision, acc =>
    let acc' := acc ++ [⟨x, y⟩]
    let y' := if decision > 0 then y - 1 else y
    let d' := if decision > 0 then decision + 2 * (distance_y - distance_x)
              else decision + 2 * distance_y
    new45Loop distance_x distance_y n (x + 1) y' d' acc'

/-- `OneColorSegment::new_45_deg` (`src/segment.rs` lines 109–150), producing
the point list: errors with `InvalidPoints` when `distance_x` exceeds the
`i32` range (the NaN/infinite cases cannot arise in the exact model), else
runs the loop `distance_x as i32` times starting from an empty point list.
A negative loop bound runs zero iterations, as in Rust. -/
def new_45_deg_points (start end_ : Point) : Except InvalidPoints (List Point) :=
  let distance_x := end_.x - start.x
  let distance_y := start.y - end_.y
  if distance_x > 2147483647 ∨ distance_x < -2147483648 then
    .error .invalidPoints
  else
    .ok (new45Loop distance_x distance_y (truncToward0 distance_x).toNat
      start.x start.y (2 * distance_y - distance_x) [])

end OneColorSegment

/-- `Color` from `src/lib.rs`: four 8-bit channels, modelled as naturals;
a Rust `u8` value always satisfies `Valid` below. -/
structure Color where
  r : ℕ
  g : ℕ
  b : ℕ
  a : ℕ
deriving DecidableEq

namespace Color

/-- The channel range of `u8`. -/
def Valid (c : Color) : Prop :=
  c.r ≤ 255 ∧ c.g ≤ 255 ∧ c.b ≤ 255 ∧ c.a ≤ 255

instance (c : Color) : Decidable c.Valid := by
  unfold Valid; infer_instance

/-- `Color::RED` from `src/lib.rs`. -/
def RED : Color := ⟨255, 0, 0, 255⟩

/-- `Color::BLACK` from `src/lib.rs`. -/
def BLACK : Color := ⟨0, 0, 0, 255⟩

/-- `Color::WHITE` from `src/lib.rs`. -/
def WHITE : Color := ⟨255, 255, 255, 255⟩

/-- `impl Add for Color` (`src/lib.rs`): channelwise `u8::saturating_add`,
i.e. the sum clamped to 255. -/
def add (c₁ c₂ : Color) : Color :=
  ⟨min (c₁.r + c₂.r) 255, min (c₁.g + c₂.g) 255, min (c₁.b + c₂.b) 255, min (c₁.a + c₂.a) 255⟩

/-- `impl Sub for Color` (`src/lib.rs`): channelwise `u8::saturating_sub`,
i.e. truncated subtraction (ℕ subtraction is exactly this). -/
def sub (c₁ c₂ : Color) : Color :=
  ⟨c₁.r - c₂.r, c₁.g - c₂.g, c₁.b - c₂.b, c₁.a - c₂.a⟩

/-- `impl Mul<u8> for Color` (`src/lib.rs`): channelwise `u8::saturating_mul`,
i.e. the product clamped to 255. -/
def mul (c : Color) (rhs : ℕ) : Color :=
  ⟨min (c.r * rhs) 255, min (c.g * rhs) 255, min (c.b * rhs) 255, min (c.a * rhs) 255⟩

/-- `impl Div<u8> for Color` (`src/lib.rs`): channelwise `u8::saturating_div`.
For unsigned integers `saturating_div` is plain Euclidean division, and it
panics when the divisor is zero; `none` models the panic. -/
def div (c : Color) (rhs : ℕ) : Option Color :=
  if rhs = 0 then none
  else some ⟨c.r / rhs, c.g / rhs, c.b / rhs, c.a / rhs⟩

end Color

/-- `OneColorSegment` from `src/segment.rs`: a color and the rasterized point
list. -/
structure OneColorSegmentData where
  color : Color
  points : List Point
deriving DecidableEq

/-- `OneColorCurve` from `src/curve.rs`: the flattened sampled point list and
a color. -/
structure OneColorCurve where
  points : List Point
  color : Color
deriving DecidableEq

/-- `WrongInterval` from `src/curve.rs`. -/
inductive WrongInterval where
  | wrongInterval
deriving DecidableEq

/-- The `while (t - end).abs() > SMALL_ERROR_MARGIN` loop of
`OneColorCurve::new_parametric` (`src/curve.rs` lines 54–64), with fuel for
the outer iterations and a fixed fuel for each inner
`OneColorSegment::new` rasterization: step `t` by `h`, rasterize a segment
from the previous sampled point to the new one, and append its points.
`none` models a computation that has not returned within the fuel. -/
def parametricLoop (x_fn y_fn : ℚ → ℚ) (end_ h : ℚ) (ifuel : ℕ) :
    ℕ → ℚ → Point → List Point → Option (List Point)
  | 0, t, _, points =>
    if |t - end_| > SMALL_ERROR_MARGIN then none else some points
  | fuel + 1, t, first_point, points =>
    if |t - end_| > SMALL_ERROR_MARGIN then
      let t' := t + h
      let last_point : Point := ⟨x_fn t', y_fn t'⟩
      match OneColorSegment.new_points first_point last_point ifuel with
      | none => none
      | some segment_points =>
        parametricLoop x_fn y_fn end_ h ifuel fuel t' last_point (points ++ segment_points)
    else some points

namespace OneColorCurve

/-- `OneColorCurve::new_parametric` (`src/curve.rs` lines 30–67): error
`WrongInterval` when `end ≤ start`, else sample with step
`h = (end - start) / num_segments` (default 500 segments) until `t` is within
`SMALL_ERROR_MARGIN` of `end`. With `num_segments = 0`, Rust's `f64` division
yields an infinite `h` and the loop never exits; the model's `ℚ` division by
zero yields `h = 0` and the loop likewise never exits, so both fail to
return. -/
def new_parametric (color : Color) (x_fn y_fn : ℚ → ℚ) (start end_ : ℚ)
    (num_segments : Option ℤ) (fuel : ℕ) :
    Option (Except WrongInterval OneColorCurve) :=
  if end_ ≤ start then some (.error .wrongInterval)
  else
    let n := num_segments.getD 500
    let h := (end_ - start) / (n : ℚ)
    (parametricLoop x_fn y_fn end_ h fuel fuel start ⟨x_fn start, y_fn start⟩ []).map
      (fun points => .ok ⟨points, color⟩)

end OneColorCurve

/-- The control skeleton of the sampling loop in
`OneColorCurve::new_parametric`: the loop variable `t` is advanced by `h`
independently of the accumulated points, so the loop's iteration count is
fully determined by `end`, `h` and the initial `t`. `some k` means the exit
condition `|t - end| ≤ SMALL_ERROR_MARGIN` is reached after `k` iterations;
`none` means it is not reached within the fuel. -/
def parametricSteps (end_ h : ℚ) : ℕ → ℚ → Option ℕ
  | 0, t => if |t - end_| > SMALL_ERROR_MARGIN then none else some 0
  | fuel + 1, t =>
    if |t - end_| > SMALL_ERROR_MARGIN then
      (parametricSteps end_ h fuel (t + h)).map (· + 1)
    else some 0

/-- The renderer capability (`Renderer` trait in `src/lib.rs`), modelled as a
state: `current_color` is the last color passed to `set_color`, and `drawn`
logs the points emitted by `draw_points` with the color they were drawn in. -/
structure RendererState where
  current_color : Color
  drawn : List (Color × Point)
deriving DecidableEq

/-- `Renderer::set_color`. -/
def set_color (renderer : RendererState) (color : Color) : RendererState :=
  { renderer with current_color := color }

/-- `SegmentDrawError` from `src/segment.rs`. -/
inductive SegmentDrawError where
  | draw
  | empty
deriving DecidableEq

/-- `CurveDrawError` from `src/curve.rs`. -/
inductive CurveDrawError where
  | draw
  | empty
deriving DecidableEq

namespace OneColorSegmentData

/-- `Renderable::render` for `OneColorSegment` (`src/segment.rs` lines
376–395): save the current color, error `Empty` on an empty point list, set
the segment's color, draw the points (success decided by the underlying
renderer, abstracted as `draw_ok`), restore the saved color. -/
def render (draw_ok : List Point → Bool) (self : OneColorSegmentData)
    (renderer : RendererState) : RendererState × Except SegmentDrawError Unit :=
  let old_color := renderer.current_color
  if self.points.isEmpty then (renderer, .error .empty)
  else
    let renderer₁ := set_color renderer self.color
    if draw_ok self.points then
      let renderer₂ :=
        { renderer₁ with drawn := renderer₁.drawn ++ self.points.map (fun p => (self.color, p)) }
      (set_color renderer₂ old_color, .ok ())
    else (renderer₁, .error .draw)

end OneColorSegmentData

namespace OneColorCurve

/-- `Renderable::render` for `OneColorCurve` (`src/curve.rs` lines 301–317):
identical structure to the segment's `render`. -/
def render (draw_ok : List Point → Bool) (self : OneColorCurve)
    (renderer : RendererState) : RendererState × Except CurveDrawError Unit :=
  let old_color := renderer.current_color
  if self.points.isEmpty then (renderer, .error .empty)
  else
    let renderer₁ := set_color renderer self.color
    if draw_ok self.points then
      let renderer₂ :=
        { renderer₁ with drawn := renderer₁.drawn ++ self.points.map (fun p => (self.color, p)) }
      (set_color renderer₂ old_color, .ok ())
    else (renderer₁, .error .draw)

end OneColorCurve

/-- The even-odd crossing count as the spec §4.3 words it, for the refinement
comparison in claim C5: count the cyclically adjacent vertex pairs that
straddle the point's `y` and whose interpolated crossing
`x = x₀ + t·(x₁ - x₀)` with `t = (p.y - y₀)/(y₁ - y₀)` is strictly greater
than the point's `x`. -/
def crossingCountSpec (P : Polygon) (p : Point) : ℕ :=
  ((cyclicPairs P.vertices).filter (fun e =>
    (decide (e.1.y > p.y) != decide (e.2.y > p.y)) &&
    decide (p.x < e.1.x + (p.y - e.1.y) / (e.2.y - e.1.y) * (e.2.x - e.1.x)))).length

/-- The square polygon used by the clipping tests and spec scenarios:
corners `(100,100),(100,200),(200,200),(200,100)`. -/
def squarePolygon : Polygon :=
  ⟨[⟨100, 100⟩, ⟨100, 200⟩, ⟨200, 200⟩, ⟨200, 100⟩]⟩

/-- The `[0,5]×[0,5]` square from the containment tests. -/
def square5 : Polygon :=
  ⟨[⟨0, 0⟩, ⟨5, 0⟩, ⟨5, 5⟩, ⟨0, 5⟩]⟩

section Lemmas

lemma allEqFirst_clipSignums (line : Line) (polygon : Polygon)
    (hne : polygon.vertices ≠ [])
    (hsigns : ∀ v₁ ∈ polygon.vertices, ∀ v₂ ∈ polygon.vertices,
      fsignum (line.a * v₁.x + line.b * v₁.y + line.c)
        = fsignum (line.a * v₂.x + line.b * v₂.y + line.c)) :
    allEqFirst (OneColorSegment.clipSignums line polygon) = true := by
  unfold OneColorSegment.clipSignums
  cases hvs : polygon.vertices with
  | nil => exact absurd hvs hne
  | cons x xs =>
    simp only [List.map_cons, allEqFirst, List.all_eq_true]
    intro v hv
    rcases List.mem_map.mp hv with ⟨a, ha, rfl⟩
    refine beq_iff_eq.mpr (hsigns a ?_ x ?_)
    · rw [hvs]; exact List.mem_cons_of_mem x ha
    · rw [hvs]; exact List.mem_cons_self x xs

lemma position_some_get {α : Type} (p : α → Bool) :
    ∀ (l : List α) (i : ℕ), position l p = some i → ∃ a, l[i]? = some a ∧ p a = true := by
  intro l
  induction l with
  | nil => intro i h; simp [position] at h
  | cons x xs ih =>
    intro i h
    simp only [position] at h
    by_cases hx : p x = true
    · rw [if_pos hx] at h
      cases h
      exact ⟨x, by simp, hx⟩
    · rw [if_neg hx, Option.map_eq_some'] at h
      obtain ⟨j, hj, hji⟩ := h
      subst hji
      rcases ih j hj with ⟨a, ha, hpa⟩
      exact ⟨a, by simpa using ha, hpa⟩

lemma rposition_isSome_of_mem {α : Type} (p : α → Bool) :
    ∀ (l : List α) (a : α), a ∈ l → p a = true → (rposition l p).isSome = true := by
  intro l
  induction l with
  | nil => intro a ha; simp at ha
  | cons x xs ih =>
    intro a ha hpa
    rcases List.mem_cons.mp ha with rfl | hmem
    · unfold rposition
      cases hr : rposition xs p with
      | some j => simp
      | none => simp [hpa]
    · unfold rposition
      have := ih a hmem hpa
      cases hr : rposition xs p with
      | some j => simp
      | none => rw [hr] at this; simp at this

lemma rposition_getLast {α : Type} (p : α → Bool) :
    ∀ (l : List α) (h : l ≠ []), p (l.getLast h) = true →
      rposition l p = some (l.length - 1) := by
  intro l
  induction l with
  | nil => intro h; exact absurd rfl h
  | cons x xs ih =>
    intro h hp
    cases xs with
    | nil =>
      simp only [List.getLast] at hp
      simp [rposition, hp]
    | cons y ys =>
      rw [List.getLast_cons (by simp)] at hp
      have hxs := ih (by simp) hp
      unfold rposition
      rw [hxs]
      simp [List.length_cons]

lemma length_filter_map_filter {α β : Type} (s : α → Bool) (f : α → β) (q : β → Bool) :
    ∀ (l : List α),
      (((l.filter s).map f).filter q).length = (l.filter (fun a => s a && q (f a))).length := by
  intro l
  induction l with
  | nil => rfl
  | cons x xs ih =>
    by_cases hs : s x = true
    · by_cases hq : q (f x) = true
      · simp [List.filter_cons, hs, hq, ih]
      · simp only [Bool.not_eq_true] at hq
        simp [List.filter_cons, hs, hq, ih]
    · simp only [Bool.not_eq_true] at hs
      simp [List.filter_cons, hs, ih]

lemma newLoop_invariant (ex ey sx sy dx dy : ℚ) (swapped : Bool) :
    ∀ (fuel : ℕ) (x y d : ℚ) (acc ps : List Point),
      acc.getLast? = some ⟨x, y⟩ →
      OneColorSegment.newLoop ex ey sx sy dx dy swapped fuel x y d acc = some ps →
      ps.head? = acc.head? ∧
      ∃ l, ps.getLast? = some l ∧ |l.x - ex| ≤ ERROR_MARGIN ∧ |l.y - ey| ≤ ERROR_MARGIN := by
  intro fuel
  induction fuel with
  | zero =>
    intro x y d acc ps hlast h
    simp only [OneColorSegment.newLoop] at h
    by_cases hc : |x - ex| > ERROR_MARGIN ∨ |y - ey| > ERROR_MARGIN
    · rw [if_pos hc] at h; cases h
    · rw [if_neg hc] at h
      cases h
      push_neg at hc
      exact ⟨rfl, ⟨x, y⟩, hlast, hc.1, hc.2⟩
  | succ fuel ih =>
    intro x y d acc ps hlast h
    simp only [OneColorSegment.newLoop] at h
    by_cases hc : |x - ex| > ERROR_MARGIN ∨ |y - ey| > ERROR_MARGIN
    · rw [if_pos hc] at h
      have hne : acc ≠ [] := by
        intro hacc
        rw [hacc] at hlast
        cases hlast
      obtain ⟨hhead, hrest⟩ := ih _ _ _ _ _ (List.getLast?_concat _) h
      refine ⟨?_, hrest⟩
      rw [hhead]
      cases acc with
      | nil => exact absurd rfl hne
      | cons a as => simp
    · rw [if_neg hc] at h
      cases h
      push_neg at hc
      exact ⟨rfl, ⟨x, y⟩, hlast, hc.1, hc.2⟩

lemma parametricLoop_neg_none :
    ∀ (fuel ifuel : ℕ) (t : ℚ) (fp : Point) (acc : List Point), t ≤ 0 →
      parametricLoop (fun t => t) (fun t => t) 1 (-1) ifuel fuel t fp acc = none := by
  intro fuel
  induction fuel with
  | zero =>
    intro ifuel t fp acc ht
    simp only [parametricLoop]
    rw [if_pos]
    rw [abs_of_neg (by linarith)]
    unfold SMALL_ERROR_MARGIN
    linarith
  | succ fuel ih =>
    intro ifuel t fp acc ht
    simp only [parametricLoop]
    rw [if_pos]
    · cases hseg : OneColorSegment.new_points fp ⟨t + -1, t + -1⟩ ifuel with
      | none => rfl
      | some segment_points => exact ih ifuel (t + -1) _ _ (by linarith)
    · rw [abs_of_neg (by linarith)]
      unfold SMALL_ERROR_MARGIN
      linarith

lemma parametricSteps_neg_none :
    ∀ (fuel : ℕ) (t : ℚ), t ≤ 0 → parametricSteps 1 (-1) fuel t = none := by
  intro fuel
  induction fuel with
  | zero =>
    intro t ht
    simp only [parametricSteps]
    rw [if_pos]
    rw [abs_of_neg (by linarith)]
    unfold SMALL_ERROR_MARGIN
    linarith
  | succ fuel ih =>
    intro t ht
    simp only [parametricSteps]
    rw [if_pos]
    · rw [ih (t + -1) (by linarith)]
      rfl
    · rw [abs_of_neg (by linarith)]
      unfold SMALL_ERROR_MARGIN
      linarith

lemma parametricSteps_reaches (h : ℚ) (end_ : ℚ) :
    ∀ (m : ℕ) (t : ℚ), |t + m * h - end_| ≤ SMALL_ERROR_MARGIN →
      ∃ k ≤ m, parametricSteps end_ h m t = some k := by
  intro m
  induction m with
  | zero =>
    intro t ht
    refine ⟨0, le_refl 0, ?_⟩
    simp only [parametricSteps]
    rw [if_neg]
    push_neg
    simpa using ht
  | succ m ih =>
    intro t ht
    by_cases hc : |t - end_| > SMALL_ERROR_MARGIN
    · have ht' : |(t + h) + m * h - end_| ≤ SMALL_ERROR_MARGIN := by
        have : (t + h) + m * h = t + (m + 1 : ℕ) * h := by push_cast; ring
        rw [this]
        exact ht
      obtain ⟨k, hk, hs⟩ := ih (t + h) ht'
      refine ⟨k + 1, by omega, ?_⟩
      simp only [parametricSteps]
      rw [if_pos hc, hs]
      rfl
    · refine ⟨0, by omega, ?_⟩
      simp only [parametricSteps]
      rw [if_neg hc]

end Lemmas

section Claims

/-- C1: for the square with corners `(100,100),(100,200),(200,200),(200,100)`,
clipping the segment `(50,150)-(250,150)` succeeds and resolves the endpoints
to `(100,150)` and `(200,150)`, and clipping `(150,50)-(150,250)` succeeds and
resolves endpoints equal, as an unordered pair, to `{(150,100),(150,200)}`. -/
theorem claim_C1 :
    OneColorSegment.get_start_end_inside_polygon ⟨50, 150⟩ ⟨250, 150⟩ squarePolygon
      = .ok (⟨100, 150⟩, ⟨200, 150⟩) ∧
    ∃ p q, OneColorSegment.get_start_end_inside_polygon ⟨150, 50⟩ ⟨150, 250⟩ squarePolygon
      = .ok (p, q) ∧
      ((p = ⟨150, 100⟩ ∧ q = ⟨150, 200⟩) ∨ (p = ⟨150, 200⟩ ∧ q = ⟨150, 100⟩)) := by
  constructor
  · norm_num [OneColorSegment.get_start_end_inside_polygon, Polygon.contains, Polygon.edges,
      cyclicPairs, squarePolygon, List.rotate, Line.new_from_points, Line.intersection,
      fsignum, allEqFirst, OneColorSegment.clipSignums, OneColorSegment.clipIntersections]
  · refine ⟨⟨150, 200⟩, ⟨150, 100⟩, ?_, Or.inr ⟨rfl, rfl⟩⟩
    norm_num [OneColorSegment.get_start_end_inside_polygon, Polygon.contains, Polygon.edges,
      cyclicPairs, squarePolygon, List.rotate, Line.new_from_points, Line.intersection,
      fsignum, allEqFirst, OneColorSegment.clipSignums, OneColorSegment.clipIntersections]

/-- C2: whenever both endpoints are contained in the polygon, the
clip-endpoint resolution returns `Ok` with exactly the original pair, and the
in-place `cut_inside_polygon` succeeds leaving the stored point list
unchanged. -/
theorem claim_C2 :
    (∀ (polygon : Polygon) (start end_ : Point),
      polygon.contains start = true → polygon.contains end_ = true →
      OneColorSegment.get_start_end_inside_polygon start end_ polygon = .ok (start, end_)) ∧
    (∀ (polygon : Polygon) (points : List Point), points ≠ [] →
      polygon.contains (points.headD ⟨0, 0⟩) = true →
      polygon.contains (points.getLastD ⟨0, 0⟩) = true →
      OneColorSegment.cut_inside_polygon polygon points = (.ok (), points)) := by
  have hres : ∀ (polygon : Polygon) (start end_ : Point),
      polygon.contains start = true → polygon.contains end_ = true →
      OneColorSegment.get_start_end_inside_polygon start end_ polygon = .ok (start, end_) := by
    intro polygon start end_ h₁ h₂
    unfold OneColorSegment.get_start_end_inside_polygon
    simp [h₁, h₂]
  refine ⟨hres, ?_⟩
  intro polygon points hne h₁ h₂
  cases points with
  | nil => exact absurd rfl hne
  | cons x xs =>
    have h₁' : polygon.contains x = true := h₁
    have hlast : ((x :: xs).getLast (by simp)) = (x :: xs).getLastD (⟨0, 0⟩ : Point) := by
      rw [List.getLastD_eq_getLast?, List.getLast?_eq_getLast (x :: xs) (by simp)]
      rfl
    generalize hE : (x :: xs).getLastD (⟨0, 0⟩ : Point) = e at h₂ hlast
    have hok := hres polygon x e h₁' h₂
    have hpos : position (x :: xs) (fun point => point == x || point == e) = some 0 := by
      simp [position]
    have hrpos : rposition (x :: xs) (fun point => point == e || point == x)
        = some ((x :: xs).length - 1) := by
      apply rposition_getLast
      rw [hlast]
      simp
    unfold OneColorSegment.cut_inside_polygon
    rw [show (x :: xs).headD (⟨0, 0⟩ : Point) = x from rfl, hE]
    simp only [hok, hpos, hrpos, List.drop_zero]
    have hlen : (x :: xs).length - 1 + 1 = (x :: xs).length := by simp
    rw [hlen, List.take_length]

/-- C2 witness: the segment `(125,150)-(175,150)` lies fully inside the
standard square; resolution returns it unchanged and the in-place cut leaves
the stored points untouched. -/
theorem claim_C2_witness :
    squarePolygon.contains ⟨125, 150⟩ = true ∧
    squarePolygon.contains ⟨175, 150⟩ = true ∧
    OneColorSegment.get_start_end_inside_polygon ⟨125, 150⟩ ⟨175, 150⟩ squarePolygon
      = .ok (⟨125, 150⟩, ⟨175, 150⟩) ∧
    OneColorSegment.cut_inside_polygon squarePolygon [⟨125, 150⟩, ⟨175, 150⟩]
      = (.ok (), [⟨125, 150⟩, ⟨175, 150⟩]) := by
  have h₁ : squarePolygon.contains ⟨125, 150⟩ = true := by
    norm_num [Polygon.contains, cyclicPairs, squarePolygon, List.rotate]
  have h₂ : squarePolygon.contains ⟨175, 150⟩ = true := by
    norm_num [Polygon.contains, cyclicPairs, squarePolygon, List.rotate]
  refine ⟨h₁, h₂, claim_C2.1 squarePolygon ⟨125, 150⟩ ⟨175, 150⟩ h₁ h₂, ?_⟩
  exact claim_C2.2 squarePolygon [⟨125, 150⟩, ⟨175, 150⟩] (by simp) h₁ h₂

/-- C3: whenever the clipper reaches the vertex sign test (not both endpoints
inside) and the sign of `a·vx + b·vy + c` of the line through the endpoints is
identical at every vertex of the (nonempty) polygon, the result is the error
`Outside`; in particular the segment `(500,500)-(500,600)` clipped against the
standard square returns `Outside`. -/
theorem claim_C3 :
    (∀ (polygon : Polygon) (start end_ : Point),
      ¬(polygon.contains start = true ∧ polygon.contains end_ = true) →
      polygon.vertices ≠ [] →
      (∀ v₁ ∈ polygon.vertices, ∀ v₂ ∈ polygon.vertices,
        fsignum ((Line.new_from_points start end_).a * v₁.x
          + (Line.new_from_points start end_).b * v₁.y
          + (Line.new_from_points start end_).c)
        = fsignum ((Line.new_from_points start end_).a * v₂.x
          + (Line.new_from_points start end_).b * v₂.y
          + (Line.new_from_points start end_).c)) →
      OneColorSegment.get_start_end_inside_polygon start end_ polygon = .error .outside) ∧
    OneColorSegment.get_start_end_inside_polygon ⟨500, 500⟩ ⟨500, 600⟩ squarePolygon
      = .error .outside := by
  constructor
  · intro polygon start end_ hnot hne hsigns
    have hcond : (polygon.contains start && polygon.contains end_) = false := by
      cases hs : polygon.contains start with
      | false => simp [hs]
      | true =>
        cases he : polygon.contains end_ with
        | false => simp [hs, he]
        | true => exact absurd ⟨hs, he⟩ hnot
    have hall' := allEqFirst_clipSignums (Line.new_from_points start end_) polygon hne hsigns
    unfold OneColorSegment.get_start_end_inside_polygon
    rw [hcond]
    simp only [Bool.false_eq_true, if_false, hall', if_true]
  · norm_num [OneColorSegment.get_start_end_inside_polygon, Polygon.contains, Polygon.edges,
      cyclicPairs, squarePolygon, List.rotate, Line.new_from_points, Line.intersection,
      fsignum, allEqFirst, OneColorSegment.clipSignums, OneColorSegment.clipIntersections]

/-- C3 witness: the universal part applied to the concrete
`(500,500)-(500,600)` segment and the standard square. -/
theorem claim_C3_witness :
    OneColorSegment.get_start_end_inside_polygon ⟨500, 500⟩ ⟨500, 600⟩ squarePolygon
      = .error .outside := by
  apply claim_C3.1 squarePolygon ⟨500, 500⟩ ⟨500, 600⟩
  · intro h
    have := h.1
    norm_num [Polygon.contains, cyclicPairs, squarePolygon, List.rotate] at this
  · simp [squarePolygon]
  · intro v₁ h₁ v₂ h₂
    fin_cases h₁ <;> fin_cases h₂ <;>
      norm_num [Line.new_from_points, fsignum, squarePolygon]

/-- C5: for the `[0,5]×[0,5]` square the even-odd containment test returns
`true` at `(3,3)`, `false` at `(6,3)` and `true` at the boundary point
`(0,0)`; and for every polygon and point, the test returns `true` exactly
when the number of ray crossings — cyclically adjacent vertex pairs
straddling the point's `y` whose interpolated crossing `x` is strictly
greater than the point's `x` — is odd. -/
theorem claim_C5 :
    square5.contains ⟨3, 3⟩ = true ∧
    square5.contains ⟨6, 3⟩ = false ∧
    square5.contains ⟨0, 0⟩ = true ∧
    (∀ (P : Polygon) (p : Point), (P.contains p = true ↔ crossingCountSpec P p % 2 = 1)) := by
  refine ⟨?_, ?_, ?_, ?_⟩
  · norm_num [Polygon.contains, cyclicPairs, square5, List.rotate]
  · norm_num [Polygon.contains, cyclicPairs, square5, List.rotate]
  · norm_num [Polygon.contains, cyclicPairs, square5, List.rotate]
  · intro P p
    unfold Polygon.contains crossingCountSpec
    rw [Nat.beq_eq_true_eq]
    rw [length_filter_map_filter]
    have hfil : (cyclicPairs P.vertices).filter
        (fun e => (decide (e.1.y > p.y) != decide (e.2.y > p.y)) &&
          decide (p.x < (p.y - e.1.y) * ((e.2.x - e.1.x) / (e.2.y - e.1.y)) + e.1.x))
        = (cyclicPairs P.vertices).filter
        (fun e => (decide (e.1.y > p.y) != decide (e.2.y > p.y)) &&
          decide (p.x < e.1.x + (p.y - e.1.y) / (e.2.y - e.1.y) * (e.2.x - e.1.x))) := by
      apply List.filter_congr
      intro e _
      have harith : (p.y - e.1.y) * ((e.2.x - e.1.x) / (e.2.y - e.1.y)) + e.1.x
          = e.1.x + (p.y - e.1.y) / (e.2.y - e.1.y) * (e.2.x - e.1.x) := by
        ring
      rw [harith]
    rw [hfil]

/-- C8 counterexample: dividing a color by the `u8` scalar `0` panics in Rust
(`u8::saturating_div` does not saturate a zero divisor), so division is not
defined for every divisor; `none` models the panic. -/
theorem claim_C8_counterexample : Color.div Color.RED 0 = none := rfl

/-- C8 (amended): channelwise `add`, `sub` and `mul` are total and keep every
channel in `[0,255]` for in-range inputs, and `div` is defined and keeps
channels in range for every nonzero divisor; division by zero panics. -/
theorem claim_C8 :
    ∀ c₁ c₂ : Color, c₁.Valid → c₂.Valid →
      (Color.add c₁ c₂).Valid ∧ (Color.sub c₁ c₂).Valid ∧
      (∀ k : ℕ, (Color.mul c₁ k).Valid) ∧
      (∀ k : ℕ, k ≠ 0 → ∃ c, Color.div c₁ k = some c ∧ c.Valid) := by
  intro c₁ c₂ h₁ _h₂
  obtain ⟨hr, hg, hb, ha⟩ := h₁
  refine ⟨⟨?_, ?_, ?_, ?_⟩, ⟨?_, ?_, ?_, ?_⟩, ?_, ?_⟩
  · exact min_le_right _ _
  · exact min_le_right _ _
  · exact min_le_right _ _
  · exact min_le_right _ _
  · exact le_trans (Nat.sub_le _ _) hr
  · exact le_trans (Nat.sub_le _ _) hg
  · exact le_trans (Nat.sub_le _ _) hb
  · exact le_trans (Nat.sub_le _ _) ha
  · intro k
    exact ⟨min_le_right _ _, min_le_right _ _, min_le_right _ _, min_le_right _ _⟩
  · intro k hk
    refine ⟨⟨c₁.r / k, c₁.g / k, c₁.b / k, c₁.a / k⟩, ?_, ?_⟩
    · simp [Color.div, hk]
    · exact ⟨le_trans (Nat.div_le_self _ _) hr, le_trans (Nat.div_le_self _ _) hg,
        le_trans (Nat.div_le_self _ _) hb, le_trans (Nat.div_le_self _ _) ha⟩

/-- C8 witness: the amended theorem applied to `RED` and `BLACK` with
divisor 2. -/
theorem claim_C8_witness :
    Color.RED.Valid ∧ Color.BLACK.Valid ∧ (Color.add Color.RED Color.BLACK).Valid ∧
    (∃ c, Color.div Color.RED 2 = some c ∧ c.Valid) := by
  have h := claim_C8 Color.RED Color.BLACK (by decide) (by decide)
  exact ⟨by decide, by decide, h.1, h.2.2.2 2 (by decide)⟩

/-- C9: for every renderer state whose `current_color` is the last color
passed to `set_color`, a successful `render` of a segment or a curve leaves
the renderer's current color exactly as it was before the call. -/
theorem claim_C9 :
    (∀ (draw_ok : List Point → Bool) (self : OneColorSegmentData)
      (renderer renderer' : RendererState),
      self.render draw_ok renderer = (renderer', .ok ()) →
      renderer'.current_color = renderer.current_color) ∧
    (∀ (draw_ok : List Point → Bool) (self : OneColorCurve)
      (renderer renderer' : RendererState),
      self.render draw_ok renderer = (renderer', .ok ()) →
      renderer'.current_color = renderer.current_color) := by
  constructor
  · intro draw_ok self renderer renderer' h
    unfold OneColorSegmentData.render at h
    by_cases hemp : self.points.isEmpty = true
    · rw [if_pos hemp] at h
      cases h
    · rw [if_neg hemp] at h
      by_cases hdraw : draw_ok self.points = true
      · rw [if_pos hdraw] at h
        have := congrArg Prod.fst h
        simp only at this
        rw [← this]
        rfl
      · rw [if_neg hdraw] at h
        cases h
  · intro draw_ok self renderer renderer' h
    unfold OneColorCurve.render at h
    by_cases hemp : self.points.isEmpty = true
    · rw [if_pos hemp] at h
      cases h
    · rw [if_neg hemp] at h
      by_cases hdraw : draw_ok self.points = true
      · rw [if_pos hdraw] at h
        have := congrArg Prod.fst h
        simp only at this
        rw [← this]
        rfl
      · rw [if_neg hdraw] at h
        cases h

/-- C9 witness: rendering a one-point red segment over a black renderer
succeeds and leaves the current color black. -/
theorem claim_C9_witness :
    OneColorSegmentData.render (fun _ => true) ⟨Color.RED, [⟨0, 0⟩]⟩
      ⟨Color.BLACK, []⟩
      = (⟨Color.BLACK, [(Color.RED, ⟨0, 0⟩)]⟩, .ok ()) ∧
    (⟨Color.BLACK, [(Color.RED, ⟨0, 0⟩)]⟩ : RendererState).current_color
      = (⟨Color.BLACK, []⟩ : RendererState).current_color := by
  have heval : OneColorSegmentData.render (fun _ => true) ⟨Color.RED, [⟨0, 0⟩]⟩
      ⟨Color.BLACK, []⟩
      = (⟨Color.BLACK, [(Color.RED, ⟨0, 0⟩)]⟩, .ok ()) := rfl
  exact ⟨heval, claim_C9.1 (fun _ => true) ⟨Color.RED, [⟨0, 0⟩]⟩ _ _ heval⟩

/-- C4 counterexample: `new_45_deg` succeeds on `(0,0)-(0,0)` with an empty
point list (violating "at least one point"), and on `(0,0)-(2,-2)` its last
produced point `(1,-1)` is a full unit step away from the end point `(2,-2)`,
beyond `ERROR_MARGIN`. -/
theorem claim_C4_counterexample :
    OneColorSegment.new_45_deg_points ⟨0, 0⟩ ⟨0, 0⟩ = .ok [] ∧
    OneColorSegment.new_45_deg_points ⟨0, 0⟩ ⟨2, -2⟩ = .ok [⟨0, 0⟩, ⟨1, -1⟩] ∧
    ¬(|(1 : ℚ) - 2| ≤ ERROR_MARGIN ∧ |(-1 : ℚ) - -2| ≤ ERROR_MARGIN) := by
  refine ⟨?_, ?_, ?_⟩
  · norm_num [OneColorSegment.new_45_deg_points, OneColorSegment.new45Loop, truncToward0]
  · norm_num [OneColorSegment.new_45_deg_points, OneColorSegment.new45Loop, truncToward0]
  · norm_num [ERROR_MARGIN]

/-- C4 (amended): for `OneColorSegment::new`, whenever the rasterization loop
terminates, the produced point list is nonempty, its first point equals the
input start exactly, and its last point equals the input end within
`ERROR_MARGIN` in each coordinate. (`new_45_deg` does not satisfy this
invariant — see the counterexample.) -/
theorem claim_C4 :
    ∀ (start end_ : Point) (fuel : ℕ) (points : List Point),
      OneColorSegment.new_points start end_ fuel = some points →
      points ≠ [] ∧ points.head? = some start ∧
      ∃ l, points.getLast? = some l ∧
        |l.x - end_.x| ≤ ERROR_MARGIN ∧ |l.y - end_.y| ≤ ERROR_MARGIN := by
  intro start end_ fuel points h
  simp only [OneColorSegment.new_points] at h
  have hlast : ([start] : List Point).getLast? = some ⟨start.x, start.y⟩ := rfl
  obtain ⟨hhead, l, hl, hx, hy⟩ := newLoop_invariant _ _ _ _ _ _ _ fuel _ _ _ _ _ hlast h
  refine ⟨?_, ?_, l, hl, hx, hy⟩
  · intro hnil
    rw [hnil] at hl
    cases hl
  · rw [hhead]
    rfl

/-- C4 witness: rasterizing `(0,0)-(3,0)` with fuel 5 terminates with the
points `(0,0),(1,0),(2,0),(3,0)`, which satisfy the amended invariant. -/
theorem claim_C4_witness :
    OneColorSegment.new_points ⟨0, 0⟩ ⟨3, 0⟩ 5
      = some [⟨0, 0⟩, ⟨1, 0⟩, ⟨2, 0⟩, ⟨3, 0⟩] ∧
    (([⟨0, 0⟩, ⟨1, 0⟩, ⟨2, 0⟩, ⟨3, 0⟩] : List Point) ≠ [] ∧
      ([⟨0, 0⟩, ⟨1, 0⟩, ⟨2, 0⟩, ⟨3, 0⟩] : List Point).head? = some ⟨0, 0⟩ ∧
      ∃ l, ([⟨0, 0⟩, ⟨1, 0⟩, ⟨2, 0⟩, ⟨3, 0⟩] : List Point).getLast? = some l ∧
        |l.x - (⟨3, 0⟩ : Point).x| ≤ ERROR_MARGIN ∧
        |l.y - (⟨3, 0⟩ : Point).y| ≤ ERROR_MARGIN) := by
  have heval : OneColorSegment.new_points ⟨0, 0⟩ ⟨3, 0⟩ 5
      = some [⟨0, 0⟩, ⟨1, 0⟩, ⟨2, 0⟩, ⟨3, 0⟩] := by
    norm_num [OneColorSegment.new_points, OneColorSegment.newLoop, fsignumQ, ERROR_MARGIN]
  exact ⟨heval, claim_C4 ⟨0, 0⟩ ⟨3, 0⟩ 5 _ heval⟩

/-- C6 counterexample: with `num_segments = -1` the step is negative, `t`
moves away from `end`, and the call never returns at any fuel — so a call
with `end > start` does not always return `Ok`. -/
theorem claim_C6_counterexample :
    ¬ ∃ (fuel : ℕ) (r : Except WrongInterval OneColorCurve),
      OneColorCurve.new_parametric Color.RED (fun t => t) (fun t => t) 0 1
        (some (-1)) fuel = some r := by
  rintro ⟨fuel, r, h⟩
  unfold OneColorCurve.new_parametric at h
  rw [if_neg (by norm_num)] at h
  simp only [Option.getD_some] at h
  rw [show ((1 : ℚ) - 0) / (((-1 : ℤ) : ℚ)) = -1 by norm_num] at h
  rw [parametricLoop_neg_none fuel fuel 0 _ [] le_rfl] at h
  cases h

/-- C6 (amended): `new_parametric` returns the error `WrongInterval` for every
call with `end ≤ start`, and a call with `end > start` never returns an
error — whenever it returns, the result is `Ok` (with a non-positive segment
count it may fail to terminate, as the counterexample shows). -/
theorem claim_C6 :
    (∀ (color : Color) (x_fn y_fn : ℚ → ℚ) (start end_ : ℚ)
      (num_segments : Option ℤ) (fuel : ℕ),
      end_ ≤ start →
      OneColorCurve.new_parametric color x_fn y_fn start end_ num_segments fuel
        = some (.error .wrongInterval)) ∧
    (∀ (color : Color) (x_fn y_fn : ℚ → ℚ) (start end_ : ℚ)
      (num_segments : Option ℤ) (fuel : ℕ) (r : Except WrongInterval OneColorCurve),
      start < end_ →
      OneColorCurve.new_parametric color x_fn y_fn start end_ num_segments fuel = some r →
      ∃ curve, r = .ok curve) := by
  constructor
  · intro color x_fn y_fn start end_ num_segments fuel h
    unfold OneColorCurve.new_parametric
    rw [if_pos h]
  · intro color x_fn y_fn start end_ num_segments fuel r h hr
    unfold OneColorCurve.new_parametric at hr
    rw [if_neg (not_le.mpr h)] at hr
    simp only [Option.map_eq_some'] at hr
    obtain ⟨points, _, hok⟩ := hr
    exact ⟨⟨points, color⟩, hok.symm⟩

/-- C6 witness: a call with `end ≤ start` returns `WrongInterval`, and a
terminating call with `end > start` returns `Ok`. -/
theorem claim_C6_witness :
    OneColorCurve.new_parametric Color.RED (fun t => t) (fun t => t) 1 0 none 3
      = some (.error .wrongInterval) ∧
    ∃ c, OneColorCurve.new_parametric Color.RED (fun _ => 0) (fun _ => 0) 0 1
      (some 1) 2 = some (.ok c) := by
  constructor
  · exact claim_C6.1 Color.RED _ _ 1 0 none 3 (by norm_num)
  · have heval : OneColorCurve.new_parametric Color.RED (fun _ => (0 : ℚ)) (fun _ => (0 : ℚ))
        0 1 (some 1) 2 = some (.ok ⟨[⟨0, 0⟩], Color.RED⟩) := by
      norm_num [OneColorCurve.new_parametric, parametricLoop, OneColorSegment.new_points,
        OneColorSegment.newLoop, fsignumQ, SMALL_ERROR_MARGIN, ERROR_MARGIN]
    obtain ⟨c, hc⟩ := claim_C6.2 Color.RED _ _ 0 1 (some 1) 2 _ (by norm_num) heval
    exact ⟨c, by rw [heval, hc]⟩

/-- C7 counterexample: with segment count `-1` the sampling loop's exit
condition is never reached — `t` decreases forever — so the loop does not
terminate for every caller-supplied segment count. -/
theorem claim_C7_counterexample :
    ¬ ∃ (fuel k : ℕ),
      parametricSteps 1 (((1 : ℚ) - 0) / (((-1 : ℤ) : ℚ))) fuel 0 = some k := by
  rintro ⟨fuel, k, h⟩
  rw [show ((1 : ℚ) - 0) / (((-1 : ℤ) : ℚ)) = -1 by norm_num] at h
  rw [parametricSteps_neg_none fuel 0 le_rfl] at h
  cases h

/-- C7 (amended): for every interval with `end > start` and every positive
segment count `n` (the default 500 included), the sampling loop terminates,
reaching its exit condition within `n` iterations: after at most `n` steps of
size `h = (end - start)/n`, `t` equals `end` exactly in the rational model. -/
theorem claim_C7 :
    ∀ (start end_ : ℚ) (n : ℤ), start < end_ → 1 ≤ n →
      ∃ k ≤ n.toNat,
        parametricSteps end_ ((end_ - start) / (n : ℚ)) n.toNat start = some k := by
  intro start end_ n hlt hn
  apply parametricSteps_reaches
  have hcast : ((n.toNat : ℕ) : ℚ) = (n : ℚ) := by
    have := Int.toNat_of_nonneg (by linarith : (0 : ℤ) ≤ n)
    exact_mod_cast congrArg (fun z : ℤ => (z : ℚ)) this
  rw [hcast]
  have hne : (n : ℚ) ≠ 0 := by
    have : (1 : ℚ) ≤ (n : ℚ) := by exact_mod_cast hn
    linarith
  have : start + (n : ℚ) * ((end_ - start) / (n : ℚ)) - end_ = 0 := by
    field_simp
  rw [this]
  norm_num [SMALL_ERROR_MARGIN]

/-- C7 witness: the amended theorem at `start = 0`, `end = 1`, `n = 2`:
the loop exits within 2 iterations. -/
theorem claim_C7_witness :
    ∃ k ≤ (2 : ℤ).toNat,
      parametricSteps 1 (((1 : ℚ) - 0) / ((2 : ℤ) : ℚ)) (2 : ℤ).toNat 0 = some k :=
  claim_C7 0 1 2 (by norm_num) (by norm_num)

/-- C10: whenever `cut_inside_polygon` returns an error on a (nonempty)
stored point list, the point list is left exactly as it was: every error path
returns before any trimming takes place (the only error site after the first
trim — the reverse search failing — is unreachable, because the point found
by the forward search still matches). -/
theorem claim_C10 :
    ∀ (polygon : Polygon) (points : List Point) (err : CutSegmentInsidePolygonError)
      (final : List Point), points ≠ [] →
      OneColorSegment.cut_inside_polygon polygon points = (.error err, final) →
      final = points := by
  intro polygon points err final _hne h
  unfold OneColorSegment.cut_inside_polygon at h
  cases hg : OneColorSegment.get_start_end_inside_polygon (points.headD ⟨0, 0⟩)
      (points.getLastD ⟨0, 0⟩) polygon with
  | error e =>
    rw [hg] at h
    simp only [Prod.mk.injEq] at h
    exact h.2.symm
  | ok se =>
    obtain ⟨s, e⟩ := se
    rw [hg] at h
    simp only at h
    cases hp : position points (fun point => point == s || point == e) with
    | none =>
      rw [hp] at h
      simp only [Prod.mk.injEq] at h
      exact h.2.symm
    | some i =>
      rw [hp] at h
      obtain ⟨a, ha, hpa⟩ := position_some_get _ points i hp
      have hmem : a ∈ points.drop i := by
        apply List.mem_of_mem_head?
        rw [List.head?_drop, ha]
        rfl
      have hpa' : (a == e || a == s) = true := by
        rcases Bool.or_eq_true_iff.mp hpa with h1 | h1
        · exact Bool.or_eq_true_iff.mpr (Or.inr h1)
        · exact Bool.or_eq_true_iff.mpr (Or.inl h1)
      have hsome := rposition_isSome_of_mem (fun point => point == e || point == s)
        (points.drop i) a hmem hpa'
      cases hr : rposition (points.drop i) (fun point => point == e || point == s) with
      | none => rw [hr] at hsome; cases hsome
      | some j =>
        simp only [hr, Prod.mk.injEq] at h
        exact absurd h.1 (by simp)

/-- C10 witness: cutting the stored points `[(500,500),(500,600)]` against
the standard square fails with `Outside` and leaves the point list
untouched. -/
theorem claim_C10_witness :
    ([⟨500, 500⟩, ⟨500, 600⟩] : List Point) ≠ [] ∧
    OneColorSegment.cut_inside_polygon squarePolygon [⟨500, 500⟩, ⟨500, 600⟩]
      = (.error .outside, [⟨500, 500⟩, ⟨500, 600⟩]) := by
  have heval : OneColorSegment.cut_inside_polygon squarePolygon [⟨500, 500⟩, ⟨500, 600⟩]
      = (.error .outside, [⟨500, 500⟩, ⟨500, 600⟩]) := by
    norm_num [OneColorSegment.cut_inside_polygon,
      OneColorSegment.get_start_end_inside_polygon, Polygon.contains, Polygon.edges,
      cyclicPairs, squarePolygon, List.rotate, Line.new_from_points, Line.intersection,
      fsignum, allEqFirst, OneColorSegment.clipSignums, OneColorSegment.clipIntersections]
  have hfinal := claim_C10 squarePolygon [⟨500, 500⟩, ⟨500, 600⟩] .outside
    [⟨500, 500⟩, ⟨500, 600⟩] (by simp) heval
  exact ⟨by simp, heval⟩

end Claims

end GraphicsIntroduction
